import Mathlib

/-!
# Verification of the Sudoku generator in `src/script.js` (`class SudokuCSP`)

A grid is the 9×9 matrix `this.board`: a list of row lists of digits, with `0`
denoting an empty cell.  Each JavaScript `Math.floor(Math.random() * k)` call
is modelled by the next element `r` of an explicit draw stream (`List Nat`),
reduced to the requested range as `r % k`; a loop that keeps drawing is
modelled by consuming the stream, and `Option.none` means the stream ran out
(the JavaScript loop would still be drawing).  The unbounded recursion of
`solveBoard` is modelled with an explicit fuel parameter counting recursion
levels; fuel `numZeros g + 1` is proved sufficient below, which pins the
fueled function to the unbounded JavaScript recursion.
-/

set_option linter.unusedVariables false

/-- A Sudoku grid (`this.board`): rows of cells, `0` = empty. -/
abbrev Grid := List (List Nat)

/-- Read `board[i][j]`.  Out-of-range reads return `0`; the source never reads
out of range. -/
def getCell (g : Grid) (i j : Nat) : Nat := (g.getD i []).getD j 0

/-- Write `board[i][j] = v`.  Out-of-range writes are dropped; the source never
writes out of range. -/
def setCell (g : Grid) (i j v : Nat) : Grid := g.set i ((g.getD i []).set j v)

/-- `Array.from({length: 9}, () => Array(9).fill(0))` (lines 9 and 88). -/
def zeroGrid : Grid := List.replicate 9 (List.replicate 9 0)

/-- A well-formed 9×9 grid: 9 rows of 9 cells. -/
def WF (g : Grid) : Prop := g.length = 9 ∧ ∀ i, i < 9 → (g.getD i []).length = 9

/-- Number of empty cells among the 81 board positions. -/
def cellIdx : Finset (Nat × Nat) := Finset.range 9 ×ˢ Finset.range 9

/-- Number of empty (zero) cells of the grid. -/
def numZeros (g : Grid) : Nat :=
  (cellIdx.filter (fun p => getCell g p.1 p.2 = 0)).card

/-- Number of non-empty cells of the grid. -/
def nonzeroCount (g : Grid) : Nat :=
  (cellIdx.filter (fun p => getCell g p.1 p.2 ≠ 0)).card

/-- All 81 cell coordinates in row-major order: the scan order of the two
nested loops of `solveBoard` (lines 69–70). -/
def cellsList : List (Nat × Nat) :=
  (List.range 9).flatMap (fun i => (List.range 9).map (fun j => (i, j)))

/-- The first empty cell in row-major order, i.e. the cell on which the body
of `solveBoard` (lines 71–80) acts; `none` when the board is full. -/
def findEmpty (g : Grid) : Option (Nat × Nat) :=
  cellsList.find? (fun p => getCell g p.1 p.2 == 0)

/-- `SudokuCSP.isValid` (lines 14–35): `num` occurs nowhere in the row, nowhere
in the column, and nowhere in the 3×3 box with origin
`(row - row % 3, col - col % 3)`.  All 9 cells of each scope are scanned,
including `(row, col)` itself. -/
def isValid (board : Grid) (row col num : Nat) : Bool :=
  ((List.range 9).all (fun x => getCell board row x != num)) &&
  ((List.range 9).all (fun x => getCell board x col != num)) &&
  ((List.range 3).all (fun i => (List.range 3).all (fun j =>
      getCell board (i + (row - row % 3)) (j + (col - col % 3)) != num)))

/-- `SudokuCSP.isSafeInBox` (lines 58–65): `num` occurs nowhere in the 3×3 box
with top-left corner `(rowStart, colStart)`. -/
def isSafeInBox (board : Grid) (rowStart colStart num : Nat) : Bool :=
  (List.range 3).all (fun i => (List.range 3).all (fun j =>
    getCell board (rowStart + i) (colStart + j) != num))

/-- The `do … while` loop of `fillBox` (lines 49–51): draw random digits in
`[1, 9]` (`Math.floor(Math.random() * 9) + 1` modelled as `r % 9 + 1`) until
one is safe in the box; returns the digit and the unconsumed stream. -/
def pickSafe (board : Grid) (rowStart colStart : Nat) : List Nat → Option (Nat × List Nat)
  | [] => none
  | r :: rest =>
    if isSafeInBox board rowStart colStart (r % 9 + 1) then some (r % 9 + 1, rest)
    else pickSafe board rowStart colStart rest

/-- The 27 diagonal-box cell assignments of `fillDiagonal`/`fillBox`
(lines 38–55) in source order: boxes with origin (0,0), (3,3), (6,6); within a
box, row offset `i` outer, column offset `j` inner.  Entries are
`(rowStart, colStart, i, j)`. -/
def seedList : List (Nat × Nat × Nat × Nat) :=
  [0, 3, 6].flatMap (fun b =>
    (List.range 3).flatMap (fun i => (List.range 3).map (fun j => (b, b, i, j))))

/-- Run a sequence of `fillBox` cell assignments, threading the draw stream:
for each `(rowStart, colStart, i, j)`, draw a digit safe in the box and write
it at `(rowStart + i, colStart + j)` (line 52). -/
def fillCellsAux : List (Nat × Nat × Nat × Nat) → Grid → List Nat → Option (Grid × List Nat)
  | [], g, rands => some (g, rands)
  | (rs, cs, i, j) :: rest, g, rands =>
    match pickSafe g rs cs rands with
    | none => none
    | some (num, rands1) => fillCellsAux rest (setCell g (rs + i) (cs + j) num) rands1

/-- `SudokuCSP.fillDiagonal` (lines 38–42). -/
def fillDiagonal (g : Grid) (rands : List Nat) : Option (Grid × List Nat) :=
  fillCellsAux seedList g rands

/-- The `for (num = 1; num <= 9; num++)` loop of `solveBoard` (lines 72–78),
with the recursive call abstracted as `solve`: place each valid digit, recurse,
undo the placement (`board[i][j] = 0`, line 76) when the recursion fails, and
report failure once the digits are exhausted (line 79).  The countdown `k` is
the number of loop iterations left (`k = 10 - num` at every call, starting from
`num = 1, k = 9`); it only makes the increasing loop on `num` structurally
recursive. -/
def tryNumsGo (solve : Grid → Option (Bool × Grid)) (i j : Nat) :
    Nat → Nat → Grid → Option (Bool × Grid)
  | _, 0, board => some (false, board)
  | num, k + 1, board =>
    if isValid board i j num then
      match solve (setCell board i j num) with
      | none => none
      | some (true, board1) => some (true, board1)
      | some (false, board1) => tryNumsGo solve i j (num + 1) k (setCell board1 i j 0)
    else tryNumsGo solve i j (num + 1) k board

/-- `SudokuCSP.solveBoard` (lines 68–84), with one unit of fuel per recursion
level.  `none` means the fuel ran out; `numZeros g + 1` is proved sufficient
below.  Returns the boolean result of `solveBoard` together with the final
state of the in-place mutated board. -/
def solveBoardF : Nat → Grid → Option (Bool × Grid)
  | 0, _ => none
  | fuel + 1, board =>
    match findEmpty board with
    | none => some (true, board)
    | some (i, j) => tryNumsGo (solveBoardF fuel) i j 1 9 board

/-- The difficulty → removal count mapping of lines 98–100: default 40
(`Medium`), `'Easy'` → 30, `'Hard'` → 50. -/
def removalCount (difficulty : String) : Nat :=
  if difficulty = "Easy" then 30 else if difficulty = "Hard" then 50 else 40

/-- `SudokuCSP.removeDigits` (lines 109–119): rejection-sample a cell id in
`[0, 80]` (`Math.floor(Math.random() * 81)` modelled as `r % 81`); if the cell
is non-empty, clear it and decrement the count.  `none` = draw stream
exhausted (the JavaScript loop would still be spinning). -/
def removeDigitsGo : List Nat → Nat → Grid → Option (Grid × List Nat)
  | rands, 0, g => some (g, rands)
  | [], _ + 1, _ => none
  | r :: rest, count + 1, g =>
    if getCell g (r % 81 / 9) (r % 81 % 9) ≠ 0 then
      removeDigitsGo rest count (setCell g (r % 81 / 9) (r % 81 % 9) 0)
    else removeDigitsGo rest (count + 1) g

/-- `removeDigits(count)` with the draw stream made explicit. -/
def removeDigits (count : Nat) (g : Grid) (rands : List Nat) : Option (Grid × List Nat) :=
  removeDigitsGo rands count g

/-- `SudokuCSP.generateNewGame` (lines 86–107).  `difficulty = none` models an
omitted argument (JavaScript default parameter `'Medium'`, line 86).  The
solver's boolean result is discarded, exactly as on line 94.  The returned
pair is the value of `this.board` after removal (`initial`) and the value
captured by the deep copy on line 95 (`solution`); object identities are
treated separately in the heap model below. -/
def generateNewGame (difficulty : Option String) (rands : List Nat) :
    Option (Grid × Grid) :=
  match fillDiagonal zeroGrid rands with
  | none => none
  | some (board1, rands1) =>
    match solveBoardF (numZeros board1 + 1) board1 with
    | none => none
    | some (_, board2) =>
      match removeDigits (removalCount (difficulty.getD "Medium")) board2 rands1 with
      | none => none
      | some (board3, _) => some (board3, board2)

/-! ## Basic lemmas about cell access and update -/

theorem getD_set_self {α : Type} {l : List α} {n : Nat} {a d : α} (h : n < l.length) :
    (l.set n a).getD n d = a := by
  simp [List.getD_eq_getElem?_getD, List.getElem?_set, h]

theorem getD_set_ne {α : Type} {l : List α} {n m : Nat} {a d : α} (h : n ≠ m) :
    (l.set n a).getD m d = l.getD m d := by
  simp [List.getD_eq_getElem?_getD, List.getElem?_set, h]

theorem set_getD_self {α : Type} {l : List α} {n : Nat} {d : α} :
    l.set n (l.getD n d) = l := by
  apply List.ext_getElem?
  intro m
  rw [List.getElem?_set]
  by_cases h : n = m
  · subst h
    by_cases hl : n < l.length
    · simp [hl, List.getD_eq_getElem?_getD, List.getElem?_eq_getElem hl]
    · rw [if_pos rfl, if_neg hl, eq_comm, List.getElem?_eq_none_iff]
      omega
  · simp [h]

theorem getCell_setCell_self {g : Grid} {i j v : Nat}
    (hi : i < g.length) (hj : j < (g.getD i []).length) :
    getCell (setCell g i j v) i j = v := by
  unfold getCell setCell
  rw [getD_set_self hi, getD_set_self hj]

theorem getCell_setCell_ne {g : Grid} {i j v a b : Nat} (h : i ≠ a ∨ j ≠ b) :
    getCell (setCell g i j v) a b = getCell g a b := by
  unfold getCell setCell
  rcases h with h | h
  · rw [getD_set_ne h]
  · by_cases hia : i = a
    · subst hia
      by_cases hl : i < g.length
      · rw [getD_set_self hl, getD_set_ne h]
      · rw [List.set_eq_of_length_le (Nat.le_of_not_lt hl)]
    · rw [getD_set_ne hia]

theorem setCell_setCell {g : Grid} {i j v w : Nat} :
    setCell (setCell g i j v) i j w = setCell g i j w := by
  unfold setCell
  by_cases hl : i < g.length
  · rw [getD_set_self hl, List.set_set, List.set_set]
  · rw [List.set_eq_of_length_le (Nat.le_of_not_lt hl),
        List.set_eq_of_length_le (Nat.le_of_not_lt hl)]

theorem setCell_zero_self {g : Grid} {i j : Nat} (h : getCell g i j = 0) :
    setCell g i j 0 = g := by
  unfold setCell
  unfold getCell at h
  rw [← h]
  by_cases hl : i < g.length
  · rw [set_getD_self, set_getD_self]
  · rw [List.set_eq_of_length_le (Nat.le_of_not_lt hl)]

theorem WF_setCell {g : Grid} (h : WF g) (i j v : Nat) : WF (setCell g i j v) := by
  obtain ⟨hlen, hrow⟩ := h
  constructor
  · unfold setCell
    rw [List.length_set, hlen]
  · intro a ha
    by_cases hia : i = a
    · subst hia
      by_cases hl : i < g.length
      · unfold setCell
        rw [getD_set_self hl, List.length_set]
        exact hrow i (hlen ▸ hl)
      · unfold setCell
        rw [List.set_eq_of_length_le (Nat.le_of_not_lt hl)]
        exact hrow i ha
    · unfold setCell
      rw [getD_set_ne hia]
      exact hrow a ha

theorem WF_zeroGrid : WF zeroGrid := by
  constructor
  · rfl
  · intro i hi
    interval_cases i <;> rfl

theorem getD_replicate {α : Type} (n m : Nat) (a d : α) :
    (List.replicate n a).getD m d = if m < n then a else d := by
  rw [List.getD_eq_getElem?_getD, List.getElem?_replicate]
  by_cases h : m < n <;> simp [h]

theorem getCell_zeroGrid (i j : Nat) : getCell zeroGrid i j = 0 := by
  unfold getCell zeroGrid
  rw [getD_replicate]
  by_cases hi : i < 9
  · rw [if_pos hi, getD_replicate]
    by_cases hj : j < 9
    · rw [if_pos hj]
    · rw [if_neg hj]
  · rw [if_neg hi]
    simp [List.getD]

/-! ## Counting empty cells -/

theorem cellIdx_card : cellIdx.card = 81 := by decide

theorem mem_cellIdx {p : Nat × Nat} : p ∈ cellIdx ↔ p.1 < 9 ∧ p.2 < 9 := by
  unfold cellIdx
  rw [Finset.mem_product, Finset.mem_range, Finset.mem_range]

theorem numZeros_le (g : Grid) : numZeros g ≤ 81 := by
  calc (cellIdx.filter (fun p => getCell g p.1 p.2 = 0)).card
      ≤ cellIdx.card := Finset.card_filter_le _ _
    _ = 81 := cellIdx_card

theorem numZeros_add_nonzeroCount (g : Grid) : numZeros g + nonzeroCount g = 81 := by
  unfold numZeros nonzeroCount
  rw [Finset.filter_card_add_filter_neg_card_eq_card]
  exact cellIdx_card

theorem one_le_numZeros {g : Grid} {i j : Nat} (hi : i < 9) (hj : j < 9)
    (h : getCell g i j = 0) : 1 ≤ numZeros g := by
  apply Finset.card_pos.mpr
  exact ⟨(i, j), Finset.mem_filter.mpr ⟨mem_cellIdx.mpr ⟨hi, hj⟩, h⟩⟩

theorem numZeros_setCell_nonzero {g : Grid} {i j v : Nat} (hwf : WF g)
    (hi : i < 9) (hj : j < 9) (h0 : getCell g i j = 0) (hv : v ≠ 0) :
    numZeros (setCell g i j v) + 1 = numZeros g := by
  obtain ⟨hlen, hrow⟩ := hwf
  have hget : getCell (setCell g i j v) i j = v :=
    getCell_setCell_self (by omega) (by rw [hrow i hi]; exact hj)
  have hset : (cellIdx.filter (fun p => getCell (setCell g i j v) p.1 p.2 = 0)) =
      (cellIdx.filter (fun p => getCell g p.1 p.2 = 0)).erase (i, j) := by
    ext p
    rw [Finset.mem_erase, Finset.mem_filter, Finset.mem_filter]
    constructor
    · intro ⟨hp, hz⟩
      by_cases hij : p = (i, j)
      · subst hij
        rw [hget] at hz
        exact absurd hz hv
      · refine ⟨hij, hp, ?_⟩
        rw [← hz]
        apply Eq.symm
        apply getCell_setCell_ne
        by_contra hc
        push_neg at hc
        exact hij (Prod.ext hc.1.symm hc.2.symm)
    · intro ⟨hne, hp, hz⟩
      refine ⟨hp, ?_⟩
      rw [getCell_setCell_ne, hz]
      by_contra hc
      push_neg at hc
      exact hne (Prod.ext hc.1.symm hc.2.symm)
  unfold numZeros
  rw [hset, Finset.card_erase_of_mem
    (Finset.mem_filter.mpr ⟨mem_cellIdx.mpr ⟨hi, hj⟩, h0⟩)]
  have := one_le_numZeros hi hj h0
  unfold numZeros at this
  omega

theorem numZeros_setCell_zero {g : Grid} {i j : Nat} (hwf : WF g)
    (hi : i < 9) (hj : j < 9) (h0 : getCell g i j ≠ 0) :
    numZeros (setCell g i j 0) = numZeros g + 1 := by
  obtain ⟨hlen, hrow⟩ := hwf
  have hget : getCell (setCell g i j 0) i j = 0 :=
    getCell_setCell_self (by omega) (by rw [hrow i hi]; exact hj)
  have hset : (cellIdx.filter (fun p => getCell (setCell g i j 0) p.1 p.2 = 0)) =
      insert (i, j) (cellIdx.filter (fun p => getCell g p.1 p.2 = 0)) := by
    ext p
    rw [Finset.mem_insert, Finset.mem_filter, Finset.mem_filter]
    constructor
    · intro ⟨hp, hz⟩
      by_cases hij : p = (i, j)
      · exact Or.inl hij
      · refine Or.inr ⟨hp, ?_⟩
        rw [← hz]
        apply Eq.symm
        apply getCell_setCell_ne
        by_contra hc
        push_neg at hc
        exact hij (Prod.ext hc.1.symm hc.2.symm)
    · intro h
      rcases h with h | ⟨hp, hz⟩
      · subst h
        exact ⟨mem_cellIdx.mpr ⟨hi, hj⟩, hget⟩
      · refine ⟨hp, ?_⟩
        by_cases hij : p = (i, j)
        · subst hij
          exact hget
        · rw [getCell_setCell_ne, hz]
          by_contra hc
          push_neg at hc
          exact hij (Prod.ext hc.1.symm hc.2.symm)
  unfold numZeros
  rw [hset, Finset.card_insert_of_not_mem]
  intro hmem
  exact h0 (Finset.mem_filter.mp hmem).2

/-! ## The row-major scan for an empty cell -/

theorem mem_cellsList {i j : Nat} : (i, j) ∈ cellsList ↔ i < 9 ∧ j < 9 := by
  unfold cellsList
  simp [List.mem_flatMap, List.mem_map, List.mem_range]

theorem findEmpty_some {g : Grid} {i j : Nat} (h : findEmpty g = some (i, j)) :
    i < 9 ∧ j < 9 ∧ getCell g i j = 0 := by
  unfold findEmpty at h
  have hmem := List.mem_of_find?_eq_some h
  have hp := List.find?_some h
  rw [beq_iff_eq] at hp
  exact ⟨(mem_cellsList.mp hmem).1, (mem_cellsList.mp hmem).2, hp⟩

theorem findEmpty_none {g : Grid} (h : findEmpty g = none) :
    ∀ i j, i < 9 → j < 9 → getCell g i j ≠ 0 := by
  intro i j hi hj
  unfold findEmpty at h
  have := List.find?_eq_none.mp h (i, j) (mem_cellsList.mpr ⟨hi, hj⟩)
  simpa using this

theorem numZeros_eq_zero {g : Grid} (h : findEmpty g = none) : numZeros g = 0 := by
  unfold numZeros
  rw [Finset.card_eq_zero, Finset.filter_eq_empty_iff]
  intro p hp
  exact findEmpty_none h p.1 p.2 (mem_cellIdx.mp hp).1 (mem_cellIdx.mp hp).2

/-! ## Characterizations of the validity checks -/

theorem isValid_iff {g : Grid} {row col num : Nat} :
    isValid g row col num = true ↔
      (∀ x, x < 9 → getCell g row x ≠ num) ∧
      (∀ x, x < 9 → getCell g x col ≠ num) ∧
      (∀ a b, a < 3 → b < 3 →
        getCell g (a + (row - row % 3)) (b + (col - col % 3)) ≠ num) := by
  unfold isValid
  simp only [Bool.and_eq_true, List.all_eq_true, List.mem_range, bne_iff_ne]
  constructor
  · intro ⟨⟨h1, h2⟩, h3⟩
    exact ⟨fun x hx => h1 x hx, fun x hx => h2 x hx, fun a b ha hb => h3 a ha b hb⟩
  · intro ⟨h1, h2, h3⟩
    exact ⟨⟨fun x hx => h1 x hx, fun x hx => h2 x hx⟩, fun a ha b hb => h3 a b ha hb⟩

theorem isSafeInBox_iff {g : Grid} {rs cs num : Nat} :
    isSafeInBox g rs cs num = true ↔
      ∀ a b, a < 3 → b < 3 → getCell g (rs + a) (cs + b) ≠ num := by
  unfold isSafeInBox
  simp only [List.all_eq_true, List.mem_range, bne_iff_ne]
  constructor
  · intro h a b ha hb
    exact h a ha b hb
  · intro h a ha b hb
    exact h a b ha hb

/-! ## The Sudoku constraint on partial grids -/

/-- Positions `(r1, c1)` and `(r2, c2)` share a row, a column, or a 3×3 box. -/
def sameUnit (r1 c1 r2 c2 : Nat) : Prop :=
  r1 = r2 ∨ c1 = c2 ∨ (r1 / 3 = r2 / 3 ∧ c1 / 3 = c2 / 3)

/-- The non-empty cells of `g` satisfy the Sudoku constraint: no digit occurs
at two distinct positions of a common row, column, or box. -/
def conflictFree (g : Grid) : Prop :=
  ∀ r1, r1 < 9 → ∀ c1, c1 < 9 → ∀ r2, r2 < 9 → ∀ c2, c2 < 9 →
    (r1, c1) ≠ (r2, c2) → sameUnit r1 c1 r2 c2 →
    getCell g r1 c1 ≠ 0 → getCell g r1 c1 ≠ getCell g r2 c2

/-- All cells of `g` hold digits in `[0, 9]`. -/
def rangeOK (g : Grid) : Prop := ∀ i, i < 9 → ∀ j, j < 9 → getCell g i j ≤ 9

/-- The non-empty cells of `g` lie in the three diagonal boxes. -/
def diagSupport (g : Grid) : Prop :=
  ∀ i, i < 9 → ∀ j, j < 9 → getCell g i j ≠ 0 → i / 3 = j / 3

instance decSameUnit (r1 c1 r2 c2 : Nat) : Decidable (sameUnit r1 c1 r2 c2) :=
  inferInstanceAs (Decidable (r1 = r2 ∨ c1 = c2 ∨ (r1 / 3 = r2 / 3 ∧ c1 / 3 = c2 / 3)))

set_option synthInstance.maxSize 1024 in
set_option synthInstance.maxHeartbeats 1000000 in
instance decConflictFree (g : Grid) : Decidable (conflictFree g) :=
  inferInstanceAs (Decidable
    (∀ r1, r1 < 9 → ∀ c1, c1 < 9 → ∀ r2, r2 < 9 → ∀ c2, c2 < 9 →
      (r1, c1) ≠ (r2, c2) → sameUnit r1 c1 r2 c2 →
      getCell g r1 c1 ≠ 0 → getCell g r1 c1 ≠ getCell g r2 c2))

instance decWF (g : Grid) : Decidable (WF g) :=
  inferInstanceAs (Decidable (g.length = 9 ∧ ∀ i, i < 9 → (g.getD i []).length = 9))

instance decRangeOK (g : Grid) : Decidable (rangeOK g) :=
  inferInstanceAs (Decidable (∀ i, i < 9 → ∀ j, j < 9 → getCell g i j ≤ 9))

instance decDiagSupport (g : Grid) : Decidable (diagSupport g) :=
  inferInstanceAs (Decidable (∀ i, i < 9 → ∀ j, j < 9 → getCell g i j ≠ 0 → i / 3 = j / 3))

theorem conflictFree_zeroGrid : conflictFree zeroGrid := by
  intro r1 _ c1 _ _ _ _ _ _ _ h
  exact absurd (getCell_zeroGrid r1 c1) h

/-- A placement that passes `isValid` preserves the Sudoku constraint: the
incremental invariant used by `solveBoard`. -/
theorem conflictFree_setCell_isValid {g : Grid} {i j n : Nat}
    (hwf : WF g) (hcf : conflictFree g) (hi : i < 9) (hj : j < 9)
    (hv : isValid g i j n = true) :
    conflictFree (setCell g i j n) := by
  obtain ⟨hrowscan, hcolscan, hboxscan⟩ := isValid_iff.mp hv
  have hself : getCell (setCell g i j n) i j = n :=
    getCell_setCell_self (by rw [hwf.1]; exact hi) (by rw [hwf.2 i hi]; exact hj)
  have hscan : ∀ r c, r < 9 → c < 9 → sameUnit i j r c → getCell g r c ≠ n := by
    intro r c hr hc hu
    rcases hu with h | h | ⟨h1, h2⟩
    · subst h
      exact hrowscan c hc
    · subst h
      exact hcolscan r hr
    · have hr3 : r = (r % 3) + (i - i % 3) := by omega
      have hc3 : c = (c % 3) + (j - j % 3) := by omega
      rw [hr3, hc3]
      exact hboxscan (r % 3) (c % 3) (by omega) (by omega)
  intro r1 h1 c1 h2 r2 h3 c2 h4 hne hu hz
  by_cases e1 : (r1, c1) = (i, j)
  · injection e1 with a1 b1
    rw [a1, b1] at hz hu hne ⊢
    rw [hself] at hz ⊢
    have e2 : ¬(i = r2 ∧ j = c2) := by
      intro ⟨a, b⟩
      exact hne (by rw [a, b])
    rw [getCell_setCell_ne (by tauto)]
    exact fun hc => hscan r2 c2 h3 h4 hu hc.symm
  · have e1c : ¬(i = r1 ∧ j = c1) := by
      intro ⟨a, b⟩
      exact e1 (by rw [a, b])
    have q1 : getCell (setCell g i j n) r1 c1 = getCell g r1 c1 :=
      getCell_setCell_ne (by tauto)
    rw [q1] at hz ⊢
    by_cases e2 : (r2, c2) = (i, j)
    · injection e2 with a2 b2
      rw [a2, b2, hself]
      have hu2 : sameUnit i j r1 c1 := by
        rw [a2, b2] at hu
        unfold sameUnit at hu ⊢
        rcases hu with h | h | h
        · exact Or.inl h.symm
        · exact Or.inr (Or.inl h.symm)
        · exact Or.inr (Or.inr ⟨h.1.symm, h.2.symm⟩)
      exact hscan r1 c1 h1 h2 hu2
    · have e2c : ¬(i = r2 ∧ j = c2) := by
        intro ⟨a, b⟩
        exact e2 (by rw [a, b])
      have q2 : getCell (setCell g i j n) r2 c2 = getCell g r2 c2 :=
        getCell_setCell_ne (by tauto)
      rw [q2]
      exact hcf r1 h1 c1 h2 r2 h3 c2 h4 hne hu hz

/-- Clearing a cell (the backtracking undo `board[i][j] = 0`) preserves the
Sudoku constraint. -/
theorem conflictFree_setCell_zero {g : Grid} (hcf : conflictFree g) (i j : Nat) :
    conflictFree (setCell g i j 0) := by
  by_cases hl : i < g.length
  · by_cases hrl : j < (g.getD i []).length
    · have hself : getCell (setCell g i j 0) i j = 0 := getCell_setCell_self hl hrl
      intro r1 h1 c1 h2 r2 h3 c2 h4 hne hu hz
      by_cases e1 : (r1, c1) = (i, j)
      · injection e1 with a1 b1
        rw [a1, b1, hself] at hz
        exact absurd rfl hz
      · have e1c : ¬(i = r1 ∧ j = c1) := by
          intro ⟨a, b⟩
          exact e1 (by rw [a, b])
        have q1 : getCell (setCell g i j 0) r1 c1 = getCell g r1 c1 :=
          getCell_setCell_ne (by tauto)
        rw [q1] at hz ⊢
        by_cases e2 : (r2, c2) = (i, j)
        · injection e2 with a2 b2
          rw [a2, b2, hself]
          exact hz
        · have e2c : ¬(i = r2 ∧ j = c2) := by
            intro ⟨a, b⟩
            exact e2 (by rw [a, b])
          have q2 : getCell (setCell g i j 0) r2 c2 = getCell g r2 c2 :=
            getCell_setCell_ne (by tauto)
          rw [q2]
          exact hcf r1 h1 c1 h2 r2 h3 c2 h4 hne hu hz
    · have : setCell g i j 0 = g := by
        unfold setCell
        rw [List.set_eq_of_length_le (Nat.le_of_not_lt hrl), set_getD_self]
      rw [this]
      exact hcf
  · have : setCell g i j 0 = g := by
      unfold setCell
      rw [List.set_eq_of_length_le (Nat.le_of_not_lt hl)]
    rw [this]
    exact hcf

theorem setCell_oob {g : Grid} {i j v : Nat}
    (h : ¬(i < g.length ∧ j < (g.getD i []).length)) : setCell g i j v = g := by
  by_cases hl : i < g.length
  · have hrl : ¬j < (g.getD i []).length := fun hc => h ⟨hl, hc⟩
    unfold setCell
    rw [List.set_eq_of_length_le (Nat.le_of_not_lt hrl), set_getD_self]
  · unfold setCell
    rw [List.set_eq_of_length_le (Nat.le_of_not_lt hl)]

theorem rangeOK_setCell {g : Grid} (h : rangeOK g) {v : Nat} (hv : v ≤ 9) (i j : Nat) :
    rangeOK (setCell g i j v) := by
  intro a ha b hb
  by_cases e : i = a ∧ j = b
  · obtain ⟨e1, e2⟩ := e
    subst e1
    subst e2
    by_cases hin : i < g.length ∧ j < (g.getD i []).length
    · rw [getCell_setCell_self hin.1 hin.2]
      exact hv
    · rw [setCell_oob hin]
      exact h i ha j hb
  · rw [getCell_setCell_ne (by tauto)]
    exact h a ha b hb

theorem rangeOK_zeroGrid : rangeOK zeroGrid := by
  intro i _ j _
  rw [getCell_zeroGrid]
  omega

theorem diagSupport_zeroGrid : diagSupport zeroGrid := by
  intro i _ j _ h
  exact absurd (getCell_zeroGrid i j) h

/-! ## The diagonal seeding phase -/

theorem pickSafe_some {g : Grid} {rs cs : Nat} :
    ∀ rands (num : Nat) rest, pickSafe g rs cs rands = some (num, rest) →
      isSafeInBox g rs cs num = true ∧ 1 ≤ num ∧ num ≤ 9 := by
  intro rands
  induction rands with
  | nil => intro num rest h; exact absurd h (by simp [pickSafe])
  | cons r tl ih =>
    intro num rest h
    unfold pickSafe at h
    by_cases hs : isSafeInBox g rs cs (r % 9 + 1) = true
    · rw [if_pos hs] at h
      injection h with h
      injection h with h1 h2
      subst h1
      exact ⟨hs, by omega, by omega⟩
    · rw [if_neg hs] at h
      exact ih num rest h

/-- One `fillBox` cell assignment preserves the generation invariant: with the
non-empty cells confined to the diagonal boxes, the box-local check of
`isSafeInBox` alone keeps the whole grid conflict free (spec §4.1 step 2). -/
theorem seed_step {g : Grid} {b oi oj num : Nat}
    (hb : b = 0 ∨ b = 3 ∨ b = 6) (hoi : oi < 3) (hoj : oj < 3)
    (hwf : WF g) (hcf : conflictFree g) (hds : diagSupport g)
    (hsafe : isSafeInBox g b b num = true) (h1 : 1 ≤ num) (h9 : num ≤ 9) :
    conflictFree (setCell g (b + oi) (b + oj) num) ∧
      diagSupport (setCell g (b + oi) (b + oj) num) := by
  have hR : b + oi < 9 := by omega
  have hC : b + oj < 9 := by omega
  have hself : getCell (setCell g (b + oi) (b + oj) num) (b + oi) (b + oj) = num :=
    getCell_setCell_self (by rw [hwf.1]; exact hR) (by rw [hwf.2 _ hR]; exact hC)
  have hscan := isSafeInBox_iff.mp hsafe
  have hinbox : ∀ r c, r < 9 → c < 9 → getCell g r c ≠ 0 →
      sameUnit (b + oi) (b + oj) r c → getCell g r c ≠ num := by
    intro r c hr hc hz hu
    have hdiag := hds r hr c hc hz
    have hbounds : b ≤ r ∧ r < b + 3 ∧ b ≤ c ∧ c < b + 3 := by
      rcases hu with h | h | ⟨ha, hb2⟩ <;> rcases hb with e | e | e <;> omega
    have er : r = b + (r - b) := by omega
    have ec : c = b + (c - b) := by omega
    rw [er, ec]
    exact hscan (r - b) (c - b) (by omega) (by omega)
  constructor
  · intro r1 h1x c1 h2x r2 h3x c2 h4x hne hu hz
    by_cases e1 : (r1, c1) = (b + oi, b + oj)
    · injection e1 with a1 b1
      rw [a1, b1] at hz hu hne ⊢
      rw [hself] at hz ⊢
      have e2 : ¬(b + oi = r2 ∧ b + oj = c2) := by
        intro ⟨a, b2⟩
        exact hne (by rw [a, b2])
      rw [getCell_setCell_ne (by tauto)]
      by_cases hz2 : getCell g r2 c2 = 0
      · rw [hz2]
        omega
      · exact fun hc => hinbox r2 c2 h3x h4x hz2 hu hc.symm
    · have e1c : ¬(b + oi = r1 ∧ b + oj = c1) := by
        intro ⟨a, b2⟩
        exact e1 (by rw [a, b2])
      have q1 : getCell (setCell g (b + oi) (b + oj) num) r1 c1 = getCell g r1 c1 :=
        getCell_setCell_ne (by tauto)
      rw [q1] at hz ⊢
      by_cases e2 : (r2, c2) = (b + oi, b + oj)
      · injection e2 with a2 b2
        rw [a2, b2, hself]
        have hu2 : sameUnit (b + oi) (b + oj) r1 c1 := by
          rw [a2, b2] at hu
          rcases hu with h | h | h
          · exact Or.inl h.symm
          · exact Or.inr (Or.inl h.symm)
          · exact Or.inr (Or.inr ⟨h.1.symm, h.2.symm⟩)
        exact hinbox r1 c1 h1x h2x hz hu2
      · have e2c : ¬(b + oi = r2 ∧ b + oj = c2) := by
          intro ⟨a, b2⟩
          exact e2 (by rw [a, b2])
        have q2 : getCell (setCell g (b + oi) (b + oj) num) r2 c2 = getCell g r2 c2 :=
          getCell_setCell_ne (by tauto)
        rw [q2]
        exact hcf r1 h1x c1 h2x r2 h3x c2 h4x hne hu hz
  · intro i hi j hj hz
    by_cases e : (i, j) = (b + oi, b + oj)
    · injection e with a b2
      rcases hb with e0 | e0 | e0 <;> omega
    · have ec : ¬(b + oi = i ∧ b + oj = j) := by
        intro ⟨a, b2⟩
        exact e (by rw [a, b2])
      rw [getCell_setCell_ne (by tauto)] at hz
      exact hds i hi j hj hz

/-- Every entry of `seedList` targets a diagonal box. -/
theorem seedList_shape : ∀ e ∈ seedList,
    (e.1 = 0 ∨ e.1 = 3 ∨ e.1 = 6) ∧ e.2.1 = e.1 ∧ e.2.2.1 < 3 ∧ e.2.2.2 < 3 := by
  decide

/-- Running any sequence of diagonal-box `fillBox` assignments preserves the
generation invariant; applied to a prefix of `seedList`, this is the claim-C4
invariant after each diagonal-box cell assignment. -/
theorem fillCellsAux_inv :
    ∀ cells (g : Grid) rands g1 rands1,
      (∀ e ∈ cells, (e.1 = 0 ∨ e.1 = 3 ∨ e.1 = 6) ∧ e.2.1 = e.1 ∧
        e.2.2.1 < 3 ∧ e.2.2.2 < 3) →
      WF g → conflictFree g → rangeOK g → diagSupport g →
      fillCellsAux cells g rands = some (g1, rands1) →
      WF g1 ∧ conflictFree g1 ∧ rangeOK g1 ∧ diagSupport g1 := by
  intro cells
  induction cells with
  | nil =>
    intro g rands g1 rands1 _ hwf hcf hro hds h
    unfold fillCellsAux at h
    injection h with h
    injection h with h1 h2
    subst h1
    exact ⟨hwf, hcf, hro, hds⟩
  | cons e tl ih =>
    intro g rands g1 rands1 hshape hwf hcf hro hds h
    obtain ⟨rs, cs, oi, oj⟩ := e
    have hsh := hshape (rs, cs, oi, oj) (List.mem_cons_self _ _)
    simp only at hsh
    obtain ⟨hb, hcs, hoi, hoj⟩ := hsh
    subst hcs
    unfold fillCellsAux at h
    cases hps : pickSafe g cs cs rands with
    | none => rw [hps] at h; exact absurd h (by simp)
    | some v =>
      obtain ⟨num, rands2⟩ := v
      rw [hps] at h
      obtain ⟨hsafe, hn1, hn9⟩ := pickSafe_some rands num rands2 hps
      obtain ⟨hcf2, hds2⟩ := seed_step hb hoi hoj hwf hcf hds hsafe hn1 hn9
      exact ih (setCell g (cs + oi) (cs + oj) num) rands2 g1 rands1
        (fun e he => hshape e (List.mem_cons_of_mem _ he))
        (WF_setCell hwf _ _ _) hcf2 (rangeOK_setCell hro hn9 _ _) hds2 h

/-! ## The backtracking solver: restoration, frame, invariants, termination -/

theorem tryNumsGo_false {solve : Grid → Option (Bool × Grid)}
    (hres : ∀ b b1, solve b = some (false, b1) → b1 = b) (i j : Nat) :
    ∀ k num (board : Grid), getCell board i j = 0 →
      ∀ out, tryNumsGo solve i j num k board = some (false, out) → out = board := by
  intro k
  induction k with
  | zero =>
    intro num board h0 out h
    unfold tryNumsGo at h
    injection h with h
    injection h with h1 h2
    exact h2.symm
  | succ k ih =>
    intro num board h0 out h
    unfold tryNumsGo at h
    by_cases hv : isValid board i j num = true
    · rw [if_pos hv] at h
      cases hs : solve (setCell board i j num) with
      | none =>
        rw [hs] at h
        exact absurd h (by simp)
      | some v =>
        obtain ⟨bl, b1⟩ := v
        rw [hs] at h
        cases bl with
        | true => exact absurd h (by simp)
        | false =>
          have hb1 : b1 = setCell board i j num := hres _ _ hs
          have hcollapse : setCell b1 i j 0 = board := by
            rw [hb1, setCell_setCell, setCell_zero_self h0]
          have h2 : tryNumsGo solve i j (num + 1) k (setCell b1 i j 0) =
              some (false, out) := h
          rw [hcollapse] at h2
          exact ih (num + 1) board h0 out h2
    · rw [if_neg hv] at h
      exact ih (num + 1) board h0 out h

/-- Claim C9 core: a failed `solveBoard` call restores the board exactly. -/
theorem solveBoardF_false :
    ∀ fuel (g g1 : Grid), solveBoardF fuel g = some (false, g1) → g1 = g := by
  intro fuel
  induction fuel with
  | zero =>
    intro g g1 h
    exact absurd h (by simp [solveBoardF])
  | succ fuel ih =>
    intro g g1 h
    unfold solveBoardF at h
    cases hf : findEmpty g with
    | none =>
      rw [hf] at h
      exact absurd h (by simp)
    | some p =>
      obtain ⟨i, j⟩ := p
      rw [hf] at h
      exact tryNumsGo_false (fun b b1 hb => ih b b1 hb) i j 9 1 g
        (findEmpty_some hf).2.2 g1 h

theorem tryNumsGo_frame {solve : Grid → Option (Bool × Grid)}
    (hres : ∀ b b1, solve b = some (false, b1) → b1 = b)
    (hframe : ∀ b bl b1, solve b = some (bl, b1) →
      ∀ a c, getCell b a c ≠ 0 → getCell b1 a c = getCell b a c)
    (i j : Nat) :
    ∀ k num (board : Grid), getCell board i j = 0 →
      ∀ bl out, tryNumsGo solve i j num k board = some (bl, out) →
      ∀ a c, getCell board a c ≠ 0 → getCell out a c = getCell board a c := by
  intro k
  induction k with
  | zero =>
    intro num board h0 bl out h a c hz
    unfold tryNumsGo at h
    injection h with h
    injection h with h1 h2
    rw [← h2]
  | succ k ih =>
    intro num board h0 bl out h a c hz
    unfold tryNumsGo at h
    by_cases hv : isValid board i j num = true
    · rw [if_pos hv] at h
      cases hs : solve (setCell board i j num) with
      | none =>
        rw [hs] at h
        exact absurd h (by simp)
      | some v =>
        obtain ⟨bl1, b1⟩ := v
        rw [hs] at h
        cases bl1 with
        | true =>
          have hout : out = b1 := by
            have := h
            simp only [Option.some.injEq, Prod.mk.injEq] at this
            exact this.2.symm
          subst hout
          have hne : ¬(i = a ∧ j = c) := by
            intro ⟨e1, e2⟩
            rw [← e1, ← e2] at hz
            exact hz h0
          have hset : getCell (setCell board i j num) a c = getCell board a c :=
            getCell_setCell_ne (by tauto)
          rw [← hset]
          rw [hframe _ _ _ hs a c (by rw [hset]; exact hz)]
        | false =>
          have hb1 : b1 = setCell board i j num := hres _ _ hs
          have hcollapse : setCell b1 i j 0 = board := by
            rw [hb1, setCell_setCell, setCell_zero_self h0]
          have h2 : tryNumsGo solve i j (num + 1) k (setCell b1 i j 0) =
              some (bl, out) := h
          rw [hcollapse] at h2
          exact ih (num + 1) board h0 bl out h2 a c hz
    · rw [if_neg hv] at h
      exact ih (num + 1) board h0 bl out h a c hz

/-- Claim C10 core: `solveBoard` never changes a cell that was non-empty when
the call was made. -/
theorem solveBoardF_frame :
    ∀ fuel (g : Grid) bl g1, solveBoardF fuel g = some (bl, g1) →
      ∀ a c, getCell g a c ≠ 0 → getCell g1 a c = getCell g a c := by
  intro fuel
  induction fuel with
  | zero =>
    intro g bl g1 h
    exact absurd h (by simp [solveBoardF])
  | succ fuel ih =>
    intro g bl g1 h a c hz
    unfold solveBoardF at h
    cases hf : findEmpty g with
    | none =>
      rw [hf] at h
      have : g1 = g := by
        simp only [Option.some.injEq, Prod.mk.injEq] at h
        exact h.2.symm
      rw [this]
    | some p =>
      obtain ⟨i, j⟩ := p
      rw [hf] at h
      exact tryNumsGo_frame (fun b b1 hb => solveBoardF_false fuel b b1 hb)
        (fun b bl1 b1 hb => ih b bl1 b1 hb) i j 9 1 g
        (findEmpty_some hf).2.2 bl g1 h a c hz

theorem tryNumsGo_inv {solve : Grid → Option (Bool × Grid)}
    (hres : ∀ b b1, solve b = some (false, b1) → b1 = b)
    (hinv : ∀ b bl b1, WF b → conflictFree b → rangeOK b → solve b = some (bl, b1) →
      (WF b1 ∧ conflictFree b1 ∧ rangeOK b1) ∧ (bl = true → findEmpty b1 = none))
    {i j : Nat} (hi : i < 9) (hj : j < 9) :
    ∀ k num (board : Grid), num + k = 10 → getCell board i j = 0 →
      WF board → conflictFree board → rangeOK board →
      ∀ bl out, tryNumsGo solve i j num k board = some (bl, out) →
      (WF out ∧ conflictFree out ∧ rangeOK out) ∧ (bl = true → findEmpty out = none) := by
  intro k
  induction k with
  | zero =>
    intro num board hnk h0 hwf hcf hro bl out h
    unfold tryNumsGo at h
    injection h with h
    injection h with h1 h2
    subst h2
    refine ⟨⟨hwf, hcf, hro⟩, fun hb => ?_⟩
    rw [← h1] at hb
    exact absurd hb (by simp)
  | succ k ih =>
    intro num board hnk h0 hwf hcf hro bl out h
    unfold tryNumsGo at h
    by_cases hv : isValid board i j num = true
    · rw [if_pos hv] at h
      cases hs : solve (setCell board i j num) with
      | none =>
        rw [hs] at h
        exact absurd h (by simp)
      | some v =>
        obtain ⟨bl1, b1⟩ := v
        rw [hs] at h
        have hnum9 : num ≤ 9 := by omega
        have hwf2 : WF (setCell board i j num) := WF_setCell hwf _ _ _
        have hcf2 : conflictFree (setCell board i j num) :=
          conflictFree_setCell_isValid hwf hcf hi hj hv
        have hro2 : rangeOK (setCell board i j num) := rangeOK_setCell hro hnum9 _ _
        cases bl1 with
        | true =>
          have hout : out = b1 ∧ bl = true := by
            simp only [Option.some.injEq, Prod.mk.injEq] at h
            exact ⟨h.2.symm, h.1.symm⟩
          obtain ⟨ho1, ho2⟩ := hout
          subst ho1
          subst ho2
          exact hinv _ _ _ hwf2 hcf2 hro2 hs
        | false =>
          have hb1 : b1 = setCell board i j num := hres _ _ hs
          have hcollapse : setCell b1 i j 0 = board := by
            rw [hb1, setCell_setCell, setCell_zero_self h0]
          have h2 : tryNumsGo solve i j (num + 1) k (setCell b1 i j 0) =
              some (bl, out) := h
          rw [hcollapse] at h2
          exact ih (num + 1) board (by omega) h0 hwf hcf hro bl out h2
    · rw [if_neg hv] at h
      exact ih (num + 1) board (by omega) h0 hwf hcf hro bl out h

/-- `solveBoard` preserves well-formedness, the Sudoku constraint, and the
digit range; on success the final board has no empty cell. -/
theorem solveBoardF_inv :
    ∀ fuel (g : Grid) bl g1, WF g → conflictFree g → rangeOK g →
      solveBoardF fuel g = some (bl, g1) →
      (WF g1 ∧ conflictFree g1 ∧ rangeOK g1) ∧ (bl = true → findEmpty g1 = none) := by
  intro fuel
  induction fuel with
  | zero =>
    intro g bl g1 _ _ _ h
    exact absurd h (by simp [solveBoardF])
  | succ fuel ih =>
    intro g bl g1 hwf hcf hro h
    unfold solveBoardF at h
    cases hf : findEmpty g with
    | none =>
      rw [hf] at h
      have : bl = true ∧ g1 = g := by
        simp only [Option.some.injEq, Prod.mk.injEq] at h
        exact ⟨h.1.symm, h.2.symm⟩
      obtain ⟨hb, hg⟩ := this
      subst hb
      subst hg
      exact ⟨⟨hwf, hcf, hro⟩, fun _ => hf⟩
    | some p =>
      obtain ⟨i, j⟩ := p
      rw [hf] at h
      obtain ⟨hi, hj, h0⟩ := findEmpty_some hf
      exact tryNumsGo_inv (fun b b1 hb => solveBoardF_false fuel b b1 hb)
        (fun b bl1 b1 w c r hb => ih b bl1 b1 w c r hb) hi hj 9 1 g rfl h0
        hwf hcf hro bl g1 h

theorem tryNumsGo_some {solve : Grid → Option (Bool × Grid)} {F : Nat}
    (hres : ∀ b b1, solve b = some (false, b1) → b1 = b)
    (htot : ∀ b : Grid, WF b → numZeros b < F → (solve b).isSome = true)
    {i j : Nat} (hi : i < 9) (hj : j < 9) :
    ∀ k num (board : Grid), WF board → getCell board i j = 0 → numZeros board ≤ F →
      (tryNumsGo solve i j num k board).isSome = true := by
  intro k
  induction k with
  | zero =>
    intro num board hwf h0 hF
    unfold tryNumsGo
    rfl
  | succ k ih =>
    intro num board hwf h0 hF
    unfold tryNumsGo
    by_cases hv : isValid board i j num = true
    · rw [if_pos hv]
      have hnum0 : num ≠ 0 := by
        intro hc
        have := (isValid_iff.mp hv).1 j hj
        rw [h0, hc] at this
        exact this rfl
      have h1 : 1 ≤ numZeros board := one_le_numZeros hi hj h0
      have hz : numZeros (setCell board i j num) + 1 = numZeros board :=
        numZeros_setCell_nonzero hwf hi hj h0 hnum0
      have hlt : numZeros (setCell board i j num) < F := by omega
      have := htot (setCell board i j num) (WF_setCell hwf _ _ _) hlt
      cases hs : solve (setCell board i j num) with
      | none => rw [hs] at this; exact absurd this (by simp)
      | some v =>
        obtain ⟨bl1, b1⟩ := v
        cases bl1 with
        | true => rfl
        | false =>
          have hb1 : b1 = setCell board i j num := hres _ _ hs
          have hcollapse : setCell b1 i j 0 = board := by
            rw [hb1, setCell_setCell, setCell_zero_self h0]
          show (tryNumsGo solve i j (num + 1) k (setCell b1 i j 0)).isSome = true
          rw [hcollapse]
          exact ih (num + 1) board hwf h0 hF
    · rw [if_neg hv]
      exact ih (num + 1) board hwf h0 hF

/-- Claim C8 core: fuel `numZeros g + 1` (one recursion level per empty cell,
plus the initial call) always suffices: the solver terminates within that
recursion depth. -/
theorem solveBoardF_some :
    ∀ fuel (g : Grid), WF g → numZeros g < fuel → (solveBoardF fuel g).isSome = true := by
  intro fuel
  induction fuel with
  | zero =>
    intro g _ h
    exact absurd h (by omega)
  | succ fuel ih =>
    intro g hwf hF
    unfold solveBoardF
    cases hf : findEmpty g with
    | none => rfl
    | some p =>
      obtain ⟨i, j⟩ := p
      obtain ⟨hi, hj, h0⟩ := findEmpty_some hf
      exact tryNumsGo_some (fun b b1 hb => solveBoardF_false fuel b b1 hb)
        (fun b w hb => ih b w hb) hi hj 9 1 g hwf h0 (by omega)

/-! ## The removal phase -/

theorem removeDigitsGo_spec :
    ∀ rands count (g : Grid) g1 rands1, WF g →
      removeDigitsGo rands count g = some (g1, rands1) →
      WF g1 ∧ numZeros g1 = numZeros g + count ∧
      (∀ a b, getCell g1 a b ≠ 0 → getCell g1 a b = getCell g a b) := by
  intro rands
  induction rands with
  | nil =>
    intro count g g1 rands1 hwf h
    cases count with
    | zero =>
      unfold removeDigitsGo at h
      injection h with h
      injection h with h1 h2
      subst h1
      exact ⟨hwf, by omega, fun a b _ => rfl⟩
    | succ n => exact absurd h (by simp [removeDigitsGo])
  | cons r tl ih =>
    intro count g g1 rands1 hwf h
    cases count with
    | zero =>
      unfold removeDigitsGo at h
      injection h with h
      injection h with h1 h2
      subst h1
      exact ⟨hwf, by omega, fun a b _ => rfl⟩
    | succ count1 =>
      unfold removeDigitsGo at h
      by_cases hz : getCell g (r % 81 / 9) (r % 81 % 9) ≠ 0
      · rw [if_pos hz] at h
        have hi : r % 81 / 9 < 9 := by omega
        have hj : r % 81 % 9 < 9 := by omega
        have hwf2 : WF (setCell g (r % 81 / 9) (r % 81 % 9) 0) := WF_setCell hwf _ _ _
        obtain ⟨w1, w2, w3⟩ := ih count1 _ g1 rands1 hwf2 h
        refine ⟨w1, ?_, ?_⟩
        · rw [w2, numZeros_setCell_zero hwf hi hj hz]
          omega
        · intro a b hnz
          have hw := w3 a b hnz
          by_cases he : (r % 81 / 9) = a ∧ (r % 81 % 9) = b
          · obtain ⟨e1, e2⟩ := he
            exfalso
            rw [hw, ← e1, ← e2] at hnz
            exact hnz (getCell_setCell_self (by rw [hwf.1]; exact hi)
              (by rw [hwf.2 _ hi]; exact hj))
          · rw [hw, getCell_setCell_ne (by tauto)]
      · rw [if_neg hz] at h
        exact ih (count1 + 1) g g1 rands1 hwf h

theorem removeDigits_spec {count : Nat} {g : Grid} {rands : List Nat} {g1 : Grid}
    {rands1 : List Nat} (hwf : WF g)
    (h : removeDigits count g rands = some (g1, rands1)) :
    WF g1 ∧ numZeros g1 = numZeros g + count ∧
      (∀ a b, getCell g1 a b ≠ 0 → getCell g1 a b = getCell g a b) :=
  removeDigitsGo_spec rands count g g1 rands1 hwf h

/-- A grid supported on the diagonal boxes has at most 27 non-empty cells. -/
theorem nonzeroCount_le_27 {g : Grid} (hds : diagSupport g) : nonzeroCount g ≤ 27 := by
  unfold nonzeroCount
  have hsub : cellIdx.filter (fun p => getCell g p.1 p.2 ≠ 0) ⊆
      cellIdx.filter (fun p => p.1 / 3 = p.2 / 3) := by
    intro p hp
    obtain ⟨hm, hnz⟩ := Finset.mem_filter.mp hp
    exact Finset.mem_filter.mpr
      ⟨hm, hds p.1 (mem_cellIdx.mp hm).1 p.2 (mem_cellIdx.mp hm).2 hnz⟩
  calc (cellIdx.filter (fun p => getCell g p.1 p.2 ≠ 0)).card
      ≤ (cellIdx.filter (fun p => p.1 / 3 = p.2 / 3)).card := Finset.card_le_card hsub
    _ = 27 := by decide

theorem removalCount_ge_30 (s : String) : 30 ≤ removalCount s := by
  unfold removalCount
  split_ifs <;> omega

/-! ## End-to-end properties of `generateNewGame` -/

/-- Master lemma: every completed generation yields a well-formed puzzle and a
full, conflict-free, in-range solution; the puzzle has exactly the removal
count of empty cells and agrees with the solution on its non-empty cells. -/
theorem generateNewGame_main :
    ∀ (d : Option String) rs (g1 g2 : Grid), generateNewGame d rs = some (g1, g2) →
      WF g1 ∧ WF g2 ∧ conflictFree g2 ∧ rangeOK g2 ∧ findEmpty g2 = none ∧
      numZeros g2 = 0 ∧
      numZeros g1 = removalCount (d.getD "Medium") ∧
      (∀ a b, getCell g1 a b ≠ 0 → getCell g1 a b = getCell g2 a b) := by
  intro d rs g1 g2 h
  unfold generateNewGame at h
  cases hfd : fillDiagonal zeroGrid rs with
  | none =>
    simp only [hfd] at h
    exact absurd h (by simp)
  | some p1 =>
    obtain ⟨b1, rs1⟩ := p1
    simp only [hfd] at h
    obtain ⟨hwf1, hcf1, hro1, hds1⟩ := fillCellsAux_inv seedList zeroGrid rs b1 rs1
      seedList_shape WF_zeroGrid conflictFree_zeroGrid rangeOK_zeroGrid
      diagSupport_zeroGrid hfd
    cases hsv : solveBoardF (numZeros b1 + 1) b1 with
    | none =>
      simp only [hsv] at h
      exact absurd h (by simp)
    | some p2 =>
      obtain ⟨bl, b2⟩ := p2
      simp only [hsv] at h
      cases hrm : removeDigits (removalCount (d.getD "Medium")) b2 rs1 with
      | none =>
        simp only [hrm] at h
        exact absurd h (by simp)
      | some p3 =>
        obtain ⟨b3, rs2⟩ := p3
        simp only [hrm] at h
        have hpair : b3 = g1 ∧ b2 = g2 := by
          simp only [Option.some.injEq, Prod.mk.injEq] at h
          exact h
        obtain ⟨e3, e2⟩ := hpair
        subst e3
        subst e2
        obtain ⟨⟨hwf2, hcf2, hro2⟩, hfull⟩ :=
          solveBoardF_inv _ b1 bl b2 hwf1 hcf1 hro1 hsv
        obtain ⟨hwf3, hcount, hagree⟩ := removeDigits_spec hwf2 hrm
        cases bl with
        | false =>
          exfalso
          have hrest : b2 = b1 := solveBoardF_false _ _ _ hsv
          have h27 : nonzeroCount b2 ≤ 27 := nonzeroCount_le_27 (by rw [hrest]; exact hds1)
          have h81 := numZeros_add_nonzeroCount b2
          have h30 := removalCount_ge_30 (d.getD "Medium")
          have hle := numZeros_le b3
          omega
        | true =>
          have hfe : findEmpty b2 = none := hfull rfl
          have hz2 : numZeros b2 = 0 := numZeros_eq_zero hfe
          refine ⟨hwf3, hwf2, hcf2, hro2, hfe, hz2, by omega, hagree⟩

/-! ## Full Sudoku validity -/

/-- The nine cells of row `i`. -/
def rowCells (g : Grid) (i : Nat) : List Nat :=
  (List.range 9).map (fun j => getCell g i j)

/-- The nine cells of column `j`. -/
def colCells (g : Grid) (j : Nat) : List Nat :=
  (List.range 9).map (fun i => getCell g i j)

/-- Offsets inside a 3×3 box. -/
def boxOffsets : List (Nat × Nat) :=
  (List.range 3).flatMap (fun a => (List.range 3).map (fun b => (a, b)))

/-- The nine cells of box `k` (boxes numbered row-major, `k < 9`). -/
def boxCells (g : Grid) (k : Nat) : List Nat :=
  boxOffsets.map (fun p => getCell g (3 * (k / 3) + p.1) (3 * (k % 3) + p.2))

/-- Full Sudoku validity (spec §3 «Solution», §8): no empty cell, and every
digit 1–9 occurs exactly once in every row, every column, and every box. -/
def fullSudoku (g : Grid) : Prop :=
  (∀ i, i < 9 → ∀ j, j < 9 → getCell g i j ≠ 0) ∧
  (∀ d, d < 10 → 1 ≤ d → ∀ k, k < 9 →
    (rowCells g k).count d = 1 ∧ (colCells g k).count d = 1 ∧
    (boxCells g k).count d = 1)

theorem count_one_of_nine {l : List Nat} (hlen : l.length = 9) (hnd : l.Nodup)
    (hmem : ∀ x ∈ l, 1 ≤ x ∧ x ≤ 9) {d : Nat} (h1 : 1 ≤ d) (h9 : d ≤ 9) :
    l.count d = 1 := by
  have hsub : l.toFinset ⊆ Finset.Icc 1 9 := fun x hx =>
    Finset.mem_Icc.mpr (hmem x (List.mem_toFinset.mp hx))
  have hcard : (Finset.Icc 1 9).card ≤ l.toFinset.card := by
    rw [List.toFinset_card_of_nodup hnd, hlen, Nat.card_Icc]
  have heq := Finset.eq_of_subset_of_card_le hsub hcard
  have hd : d ∈ l := by
    apply List.mem_toFinset.mp
    rw [heq]
    exact Finset.mem_Icc.mpr ⟨h1, h9⟩
  exact List.count_eq_one_of_mem hnd hd

theorem mem_boxOffsets : ∀ p ∈ boxOffsets, p.1 < 3 ∧ p.2 < 3 := by decide

theorem boxOffsets_nodup : boxOffsets.Nodup := by decide

/-- A conflict-free grid with no empty cell and digits in range is a full
Sudoku solution. -/
theorem fullSudoku_of_conflictFree {g : Grid} (hcf : conflictFree g)
    (hro : rangeOK g) (hfe : findEmpty g = none) : fullSudoku g := by
  have hnz : ∀ i, i < 9 → ∀ j, j < 9 → getCell g i j ≠ 0 :=
    fun i hi j hj => findEmpty_none hfe i j hi hj
  refine ⟨hnz, ?_⟩
  intro d hd10 hd1 k hk
  refine ⟨?_, ?_, ?_⟩
  · apply count_one_of_nine (by simp [rowCells]) ?_ ?_ hd1 (by omega)
    · unfold rowCells
      apply List.Nodup.map_on ?_ (List.nodup_range 9)
      intro j1 hj1 j2 hj2 heq
      rw [List.mem_range] at hj1 hj2
      by_contra hne
      exact hcf k hk j1 hj1 k hk j2 hj2
        (fun hc => hne (congrArg Prod.snd hc)) (Or.inl rfl) (hnz k hk j1 hj1) heq
    · intro x hx
      unfold rowCells at hx
      rw [List.mem_map] at hx
      obtain ⟨j, hj, hxe⟩ := hx
      rw [List.mem_range] at hj
      subst hxe
      have := hnz k hk j hj
      have := hro k hk j hj
      omega
  · apply count_one_of_nine (by simp [colCells]) ?_ ?_ hd1 (by omega)
    · unfold colCells
      apply List.Nodup.map_on ?_ (List.nodup_range 9)
      intro i1 hi1 i2 hi2 heq
      rw [List.mem_range] at hi1 hi2
      by_contra hne
      exact hcf i1 hi1 k hk i2 hi2 k hk
        (fun hc => hne (congrArg Prod.fst hc)) (Or.inr (Or.inl rfl))
        (hnz i1 hi1 k hk) heq
    · intro x hx
      unfold colCells at hx
      rw [List.mem_map] at hx
      obtain ⟨i, hi, hxe⟩ := hx
      rw [List.mem_range] at hi
      subst hxe
      have := hnz i hi k hk
      have := hro i hi k hk
      omega
  · apply count_one_of_nine (by unfold boxCells; rw [List.length_map]; rfl) ?_ ?_ hd1
      (by omega)
    · unfold boxCells
      apply List.Nodup.map_on ?_ boxOffsets_nodup
      intro p1 hp1 p2 hp2 heq
      obtain ⟨ha1, hb1⟩ := mem_boxOffsets p1 hp1
      obtain ⟨ha2, hb2⟩ := mem_boxOffsets p2 hp2
      have hr1 : 3 * (k / 3) + p1.1 < 9 := by omega
      have hc1 : 3 * (k % 3) + p1.2 < 9 := by omega
      have hr2 : 3 * (k / 3) + p2.1 < 9 := by omega
      have hc2 : 3 * (k % 3) + p2.2 < 9 := by omega
      by_contra hne
      have hpne : (3 * (k / 3) + p1.1, 3 * (k % 3) + p1.2) ≠
          (3 * (k / 3) + p2.1, 3 * (k % 3) + p2.2) := by
        intro hc
        injection hc with hca hcb
        apply hne
        have e1 : p1.1 = p2.1 := by omega
        have e2 : p1.2 = p2.2 := by omega
        obtain ⟨x1, y1⟩ := p1
        obtain ⟨x2, y2⟩ := p2
        simp only at e1 e2
        rw [e1, e2]
      have hsu : sameUnit (3 * (k / 3) + p1.1) (3 * (k % 3) + p1.2)
          (3 * (k / 3) + p2.1) (3 * (k % 3) + p2.2) := by
        refine Or.inr (Or.inr ⟨?_, ?_⟩) <;> omega
      exact hcf _ hr1 _ hc1 _ hr2 _ hc2 hpne hsu
        (hnz _ hr1 _ hc1) heq
    · intro x hx
      unfold boxCells at hx
      rw [List.mem_map] at hx
      obtain ⟨p, hp, hxe⟩ := hx
      obtain ⟨ha, hb⟩ := mem_boxOffsets p hp
      subst hxe
      have hr : 3 * (k / 3) + p.1 < 9 := by omega
      have hc : 3 * (k % 3) + p.2 < 9 := by omega
      have := hnz _ hr _ hc
      have := hro _ hr _ hc
      omega

/-! ## Object-identity (heap) model for the returned grids -/

/-- The generator object `this` of `class SudokuCSP`, with arrays modelled as
heap cells: the heap is the list of allocated arrays (address = index);
`boardRef`/`solutionRef` are the addresses held by `this.board` and
`this.solution` (`solutionRef = none` models the initial `null`). -/
structure CSPState where
  heap : List Grid
  boardRef : Nat
  solutionRef : Option Nat
deriving DecidableEq

/-- Read cell `(i, j)` of the array at address `ref`. -/
def readCell (heap : List Grid) (ref i j : Nat) : Nat :=
  getCell (heap.getD ref []) i j

/-- Mutate cell `(i, j)` of the array at address `ref` in place (an external
mutation of a returned grid). -/
def writeCell (heap : List Grid) (ref i j v : Nat) : List Grid :=
  heap.set ref (setCell (heap.getD ref []) i j v)

/-- Heap-level model of `generateNewGame`, recording object identities:
line 88 re-binds `this.board` to a freshly allocated array (the previous board
is abandoned); line 95 binds `this.solution` to a fresh deep copy
(`map(row => [...row])` allocates a new outer array and new row arrays, so the
copy shares no storage with the board); lines 103–106 return the object
`{initial: this.board, solution: this.solution}`, which holds the two
references themselves, not copies.  The grid values are those computed by the
pure `generateNewGame`.  Returns `(new state, initial address, solution
address)`. -/
def generateNewGameH (st : CSPState) (difficulty : Option String) (rands : List Nat) :
    Option (CSPState × Nat × Nat) :=
  match generateNewGame difficulty rands with
  | none => none
  | some (initialV, solutionV) =>
    some ({ heap := st.heap ++ [initialV, solutionV],
            boardRef := st.heap.length,
            solutionRef := some (st.heap.length + 1) },
          st.heap.length, st.heap.length + 1)

/-! ## The spec reading of `isValid` for claim C3 -/

/-- Modelled from the spec words for claim C3: «placing num at (row,col)
introduces no duplicate in that row, that column, or that cell's 3×3 box,
where the existing value stored at (row,col) itself is ignored in the check
(it may be overwritten)» — the three scans skip the target cell itself. -/
def noDuplicateIgnoringSelf (g : Grid) (row col num : Nat) : Bool :=
  ((List.range 9).all (fun x => x == col || getCell g row x != num)) &&
  ((List.range 9).all (fun x => x == row || getCell g x col != num)) &&
  ((List.range 3).all (fun a => (List.range 3).all (fun b =>
    (a + (row - row % 3) == row && b + (col - col % 3) == col) ||
    getCell g (a + (row - row % 3)) (b + (col - col % 3)) != num)))

theorem noDuplicateIgnoringSelf_iff {g : Grid} {row col num : Nat} :
    noDuplicateIgnoringSelf g row col num = true ↔
      ((∀ x, x < 9 → x ≠ col → getCell g row x ≠ num) ∧
       (∀ x, x < 9 → x ≠ row → getCell g x col ≠ num) ∧
       (∀ a, a < 3 → ∀ b, b < 3 →
         ¬(a + (row - row % 3) = row ∧ b + (col - col % 3) = col) →
         getCell g (a + (row - row % 3)) (b + (col - col % 3)) ≠ num)) := by
  unfold noDuplicateIgnoringSelf
  simp only [Bool.and_eq_true, Bool.or_eq_true, List.all_eq_true, List.mem_range,
    beq_iff_eq, bne_iff_ne]
  constructor
  · intro ⟨⟨h1, h2⟩, h3⟩
    refine ⟨fun x hx hne => ?_, fun x hx hne => ?_, fun a ha b hb hne => ?_⟩
    · rcases h1 x hx with h | h
      · exact absurd h hne
      · exact h
    · rcases h2 x hx with h | h
      · exact absurd h hne
      · exact h
    · rcases h3 a ha b hb with h | h
      · exact absurd h hne
      · exact h
  · intro ⟨h1, h2, h3⟩
    refine ⟨⟨fun x hx => ?_, fun x hx => ?_⟩, fun a ha b hb => ?_⟩
    · by_cases hc : x = col
      · exact Or.inl hc
      · exact Or.inr (h1 x hx hc)
    · by_cases hc : x = row
      · exact Or.inl hc
      · exact Or.inr (h2 x hx hc)
    · by_cases hc : a + (row - row % 3) = row ∧ b + (col - col % 3) = col
      · exact Or.inl hc
      · exact Or.inr (h3 a ha b hb hc)

/-- When the stored value at the target cell differs from `num` (in particular
when the cell is empty), the source `isValid` coincides with the spec's
"introduces no duplicate" reading. -/
theorem isValid_eq_noDuplicate {g : Grid} {row col num : Nat}
    (hrow : row < 9) (hcol : col < 9) (hne : getCell g row col ≠ num) :
    (isValid g row col num = true ↔ noDuplicateIgnoringSelf g row col num = true) := by
  rw [isValid_iff, noDuplicateIgnoringSelf_iff]
  constructor
  · intro ⟨h1, h2, h3⟩
    exact ⟨fun x hx _ => h1 x hx, fun x hx _ => h2 x hx,
      fun a ha b hb _ => h3 a b ha hb⟩
  · intro ⟨h1, h2, h3⟩
    refine ⟨?_, ?_, ?_⟩
    · intro x hx
      by_cases hc : x = col
      · rw [hc]
        exact hne
      · exact h1 x hx hc
    · intro x hx
      by_cases hc : x = row
      · rw [hc]
        exact hne
      · exact h2 x hx hc
    · intro a b ha hb
      by_cases hc : a + (row - row % 3) = row ∧ b + (col - col % 3) = col
      · rw [hc.1, hc.2]
        exact hne
      · exact h3 a ha b hb hc

/-! ## Completion of a generation once seeding and solving succeed -/

theorem pickSafe_append {g : Grid} {rs cs : Nat} :
    ∀ l1 (num : Nat) rest l2, pickSafe g rs cs l1 = some (num, rest) →
      pickSafe g rs cs (l1 ++ l2) = some (num, rest ++ l2) := by
  intro l1
  induction l1 with
  | nil =>
    intro num rest l2 h
    exact absurd h (by simp [pickSafe])
  | cons r tl ih =>
    intro num rest l2 h
    simp only [pickSafe, List.cons_append] at h ⊢
    by_cases hs : isSafeInBox g rs cs (r % 9 + 1) = true
    · rw [if_pos hs] at h ⊢
      injection h with h
      injection h with h1 h2
      subst h1
      subst h2
      rfl
    · rw [if_neg hs] at h ⊢
      exact ih num rest l2 h

theorem fillCellsAux_append :
    ∀ cells (g : Grid) l1 g1 rest l2, fillCellsAux cells g l1 = some (g1, rest) →
      fillCellsAux cells g (l1 ++ l2) = some (g1, rest ++ l2) := by
  intro cells
  induction cells with
  | nil =>
    intro g l1 g1 rest l2 h
    unfold fillCellsAux at h ⊢
    injection h with h
    injection h with h1 h2
    subst h1
    subst h2
    rfl
  | cons e tl ih =>
    intro g l1 g1 rest l2 h
    obtain ⟨rs, cs, oi, oj⟩ := e
    unfold fillCellsAux at h ⊢
    cases hps : pickSafe g rs cs l1 with
    | none =>
      rw [hps] at h
      exact absurd h (by simp)
    | some v =>
      obtain ⟨num, l1rest⟩ := v
      rw [hps] at h
      rw [pickSafe_append l1 num l1rest l2 hps]
      exact ih _ l1rest g1 rest l2 h

theorem removeDigits_exists :
    ∀ count (g : Grid), WF g → count ≤ nonzeroCount g →
      ∃ rands g1, removeDigitsGo rands count g = some (g1, []) := by
  intro count
  induction count with
  | zero =>
    intro g _ _
    exact ⟨[], g, rfl⟩
  | succ count1 ih =>
    intro g hwf hle
    have hpos : 0 < nonzeroCount g := by omega
    obtain ⟨p, hp⟩ := Finset.card_pos.mp hpos
    obtain ⟨hpm, hpz⟩ := Finset.mem_filter.mp hp
    obtain ⟨hi, hj⟩ := mem_cellIdx.mp hpm
    have hz2 : numZeros (setCell g p.1 p.2 0) = numZeros g + 1 :=
      numZeros_setCell_zero hwf hi hj hpz
    have h81a := numZeros_add_nonzeroCount g
    have h81b := numZeros_add_nonzeroCount (setCell g p.1 p.2 0)
    have hle2 : count1 ≤ nonzeroCount (setCell g p.1 p.2 0) := by omega
    obtain ⟨rands1, g1, hrec⟩ := ih (setCell g p.1 p.2 0) (WF_setCell hwf _ _ _) hle2
    refine ⟨(9 * p.1 + p.2) :: rands1, g1, ?_⟩
    have hlt : 9 * p.1 + p.2 < 81 := by omega
    have hmod : (9 * p.1 + p.2) % 81 = 9 * p.1 + p.2 := Nat.mod_eq_of_lt hlt
    have hdiv : (9 * p.1 + p.2) % 81 / 9 = p.1 := by omega
    have hrem : (9 * p.1 + p.2) % 81 % 9 = p.2 := by omega
    unfold removeDigitsGo
    rw [hdiv, hrem, if_pos hpz]
    exact hrec

theorem removalCount_le_50 (s : String) : removalCount s ≤ 50 := by
  unfold removalCount
  split_ifs <;> omega

/-- If the diagonal seeding consumes its stream exactly and the solver
completes the seeded board, then some continuation of the random stream makes
`generateNewGame` return `(puzzle, that completed board)`: the solver's
outcome is never turned into an error. -/
theorem generateNewGame_completes :
    ∀ (d : Option String) rsSeed (b1 g2 : Grid),
      fillDiagonal zeroGrid rsSeed = some (b1, []) →
      solveBoardF (numZeros b1 + 1) b1 = some (true, g2) →
      ∃ rsRemoval g1, generateNewGame d (rsSeed ++ rsRemoval) = some (g1, g2) := by
  intro d rsSeed b1 g2 hfd hsv
  obtain ⟨hwf1, hcf1, hro1, hds1⟩ := fillCellsAux_inv seedList zeroGrid rsSeed b1 []
    seedList_shape WF_zeroGrid conflictFree_zeroGrid rangeOK_zeroGrid
    diagSupport_zeroGrid hfd
  obtain ⟨⟨hwf2, hcf2, hro2⟩, hfull⟩ := solveBoardF_inv _ b1 true g2 hwf1 hcf1 hro1 hsv
  have hz2 : numZeros g2 = 0 := numZeros_eq_zero (hfull rfl)
  have h81 := numZeros_add_nonzeroCount g2
  have hcnt : removalCount (d.getD "Medium") ≤ nonzeroCount g2 := by
    have := removalCount_le_50 (d.getD "Medium")
    omega
  obtain ⟨rsRemoval, g1, hrm⟩ :=
    removeDigits_exists (removalCount (d.getD "Medium")) g2 hwf2 hcnt
  refine ⟨rsRemoval, g1, ?_⟩
  have hfd2 : fillDiagonal zeroGrid (rsSeed ++ rsRemoval) = some (b1, rsRemoval) :=
    fillCellsAux_append seedList zeroGrid rsSeed b1 [] rsRemoval hfd
  unfold generateNewGame
  simp only [hfd2, hsv]
  have : removeDigits (removalCount (d.getD "Medium")) g2 rsRemoval = some (g1, []) := hrm
  simp only [this]

/-! ## Concrete evaluation data

A fixed draw stream: each diagonal box draws digits 1..9 in order (draws
0..8, all safe on first try), then 40 removal draws hitting cells 0..39. -/

/-- Draw stream for the seeding phase (27 draws). -/
def rsSeedW : List Nat := List.range 9 ++ List.range 9 ++ List.range 9

/-- Full draw stream for one `generateNewGame` call at `Medium`. -/
def rsW : List Nat := rsSeedW ++ List.range 40

/-- The seeded board produced from `rsSeedW`. -/
def B1W : Grid :=
  [[1, 2, 3, 0, 0, 0, 0, 0, 0], [4, 5, 6, 0, 0, 0, 0, 0, 0], [7, 8, 9, 0, 0, 0, 0, 0, 0],
   [0, 0, 0, 1, 2, 3, 0, 0, 0], [0, 0, 0, 4, 5, 6, 0, 0, 0], [0, 0, 0, 7, 8, 9, 0, 0, 0],
   [0, 0, 0, 0, 0, 0, 1, 2, 3], [0, 0, 0, 0, 0, 0, 4, 5, 6], [0, 0, 0, 0, 0, 0, 7, 8, 9]]

/-- The puzzle grid returned for the stream `rsW` at difficulty `Medium`. -/
def G1W : Grid :=
  [[0, 0, 0, 0, 0, 0, 0, 0, 0], [0, 0, 0, 0, 0, 0, 0, 0, 0], [0, 0, 0, 0, 0, 0, 0, 0, 0],
   [0, 0, 0, 0, 0, 0, 0, 0, 0], [0, 0, 0, 0, 5, 6, 8, 3, 2], [2, 3, 4, 7, 8, 9, 5, 6, 1],
   [6, 9, 5, 8, 7, 4, 1, 2, 3], [8, 7, 1, 9, 3, 2, 4, 5, 6], [3, 4, 2, 6, 1, 5, 7, 8, 9]]

/-- The solution grid returned for the stream `rsW`. -/
def G2W : Grid :=
  [[1, 2, 3, 5, 4, 7, 6, 9, 8], [4, 5, 6, 2, 9, 8, 3, 1, 7], [7, 8, 9, 3, 6, 1, 2, 4, 5],
   [5, 6, 8, 1, 2, 3, 9, 7, 4], [9, 1, 7, 4, 5, 6, 8, 3, 2], [2, 3, 4, 7, 8, 9, 5, 6, 1],
   [6, 9, 5, 8, 7, 4, 1, 2, 3], [8, 7, 1, 9, 3, 2, 4, 5, 6], [3, 4, 2, 6, 1, 5, 7, 8, 9]]

/-- A grid on which `solveBoard` fails at once: cell (0,0) is empty, digits
1–8 sit in row 0 and digit 9 in column 0. -/
def gFail : Grid :=
  [[0, 1, 2, 3, 4, 5, 6, 7, 8], [9, 0, 0, 0, 0, 0, 0, 0, 0], [0, 0, 0, 0, 0, 0, 0, 0, 0],
   [0, 0, 0, 0, 0, 0, 0, 0, 0], [0, 0, 0, 0, 0, 0, 0, 0, 0], [0, 0, 0, 0, 0, 0, 0, 0, 0],
   [0, 0, 0, 0, 0, 0, 0, 0, 0], [0, 0, 0, 0, 0, 0, 0, 0, 0], [0, 0, 0, 0, 0, 0, 0, 0, 0]]

/-- `G2W` with its first cell cleared. -/
def gOneHole : Grid := setCell G2W 0 0 0

/-- A grid holding a single digit 5 at (0,0): the spec's `isValid` example. -/
def exG5 : Grid :=
  [[5, 0, 0, 0, 0, 0, 0, 0, 0], [0, 0, 0, 0, 0, 0, 0, 0, 0], [0, 0, 0, 0, 0, 0, 0, 0, 0],
   [0, 0, 0, 0, 0, 0, 0, 0, 0], [0, 0, 0, 0, 0, 0, 0, 0, 0], [0, 0, 0, 0, 0, 0, 0, 0, 0],
   [0, 0, 0, 0, 0, 0, 0, 0, 0], [0, 0, 0, 0, 0, 0, 0, 0, 0], [0, 0, 0, 0, 0, 0, 0, 0, 0]]

set_option maxRecDepth 1000000 in
/-- One full concrete run of the generator. -/
theorem genEval : generateNewGame (some "Medium") rsW = some (G1W, G2W) := by rfl

set_option maxRecDepth 1000000 in
/-- The seeding phase alone on the seed stream, consuming it exactly. -/
theorem seedEval : fillDiagonal zeroGrid rsSeedW = some (B1W, []) := by rfl

set_option maxRecDepth 1000000 in
/-- The completion solver on the concrete seeded board. -/
theorem solveEval : solveBoardF (numZeros B1W + 1) B1W = some (true, G2W) := by rfl

/-- The concrete heap-level run. -/
theorem genHEval : generateNewGameH ⟨[], 0, none⟩ (some "Medium") rsW =
    some (⟨[G1W, G2W], 0, some 1⟩, 0, 1) := by
  unfold generateNewGameH
  rw [genEval]
  rfl

/-! ## Difficulty only enters through the removal count -/

theorem generateNewGame_difficulty_eq (d1 d2 : Option String) (rs : List Nat)
    (h : removalCount (d1.getD "Medium") = removalCount (d2.getD "Medium")) :
    generateNewGame d1 rs = generateNewGame d2 rs := by
  unfold generateNewGame
  rw [h]

/-! ## The claims -/

/-- C1: for every generated game (any difficulty input, any draw stream), the
solution grid returned by `generateNewGame` is a full Sudoku solution: it has
no zero cells and every row, every column, and every 3×3 box contains each
digit 1–9 exactly once. -/
theorem C1_solution_is_full_sudoku :
    ∀ (d : Option String) rs (g1 g2 : Grid),
      generateNewGame d rs = some (g1, g2) → fullSudoku g2 := by
  intro d rs g1 g2 h
  obtain ⟨_, _, hcf, hro, hfe, _, _, _⟩ := generateNewGame_main d rs g1 g2 h
  exact fullSudoku_of_conflictFree hcf hro hfe

/-- C1 witness: the concrete run `genEval` yields a full-Sudoku solution. -/
theorem C1_witness : fullSudoku G2W :=
  C1_solution_is_full_sudoku (some "Medium") rsW G1W G2W genEval

/-- C2: every generated puzzle has exactly the removal count of zero cells for
its difficulty (30 Easy / 40 Medium / 50 Hard), and every non-zero puzzle cell
equals the corresponding solution cell. -/
theorem C2_puzzle_zeros_and_agreement :
    ∀ (d : Option String) rs (g1 g2 : Grid),
      generateNewGame d rs = some (g1, g2) →
      numZeros g1 = removalCount (d.getD "Medium") ∧
      removalCount "Easy" = 30 ∧ removalCount "Medium" = 40 ∧
      removalCount "Hard" = 50 ∧
      (∀ a b, getCell g1 a b ≠ 0 → getCell g1 a b = getCell g2 a b) := by
  intro d rs g1 g2 h
  obtain ⟨_, _, _, _, _, _, hz, hagree⟩ := generateNewGame_main d rs g1 g2 h
  exact ⟨hz, rfl, rfl, rfl, hagree⟩

/-- C2 witness: the concrete `Medium` run has 40 zero cells and agrees with
its solution on non-zero cells. -/
theorem C2_witness :
    numZeros G1W = removalCount "Medium" ∧
    removalCount "Easy" = 30 ∧ removalCount "Medium" = 40 ∧
    removalCount "Hard" = 50 ∧
    (∀ a b, getCell G1W a b ≠ 0 → getCell G1W a b = getCell G2W a b) :=
  C2_puzzle_zeros_and_agreement (some "Medium") rsW G1W G2W genEval

/-- C3 counterexample: the claim's «iff» fails when the stored value at the
target cell already equals `num`.  With 5 stored at (0,0), placing 5 at (0,0)
introduces no duplicate under the spec's "existing value at (row,col) is
ignored / may be overwritten" reading, yet `isValid` scans the cell itself and
returns false. -/
theorem C3_counterexample :
    noDuplicateIgnoringSelf exG5 0 0 5 = true ∧ isValid exG5 0 0 5 = false := by
  decide

/-- C3 (amended): `isValid` returns true iff `num` occurs nowhere in the row,
column, or box — a scan that includes the target cell itself.  Consequently
the claimed «introduces no duplicate, ignoring the cell itself» reading holds
exactly when the stored value at (row,col) differs from `num` (in particular
for empty cells); the claim's four concrete examples hold as stated. -/
theorem C3_isValid_characterization :
    (∀ (g : Grid) row col num, row < 9 → col < 9 → getCell g row col ≠ num →
      (isValid g row col num = true ↔ noDuplicateIgnoringSelf g row col num = true)) ∧
    isValid exG5 0 3 5 = false ∧ isValid exG5 3 0 5 = false ∧
    isValid exG5 1 1 5 = false ∧ isValid exG5 4 4 5 = true :=
  ⟨fun g row col num h1 h2 h3 => isValid_eq_noDuplicate h1 h2 h3,
   by decide, by decide, by decide, by decide⟩

/-- C3 witness: the characterization applied at the empty cell (0,1) of the
example grid. -/
theorem C3_witness :
    (0 : Nat) < 9 ∧ (1 : Nat) < 9 ∧ getCell exG5 0 1 ≠ 5 ∧
    (isValid exG5 0 1 5 = true ↔ noDuplicateIgnoringSelf exG5 0 1 5 = true) :=
  ⟨by decide, by decide, by decide,
   C3_isValid_characterization.1 exG5 0 1 5 (by decide) (by decide) (by decide)⟩

/-- C4: the generation invariant.  (1) The reset board satisfies the Sudoku
constraint; (2) after any prefix of the 27 diagonal-box cell assignments of
`fillDiagonal`/`fillBox` the working grid satisfies it; (3) every placement
`solveBoard` performs (a cell passing `isValid`) preserves it; (4) every undo
(`board[i][j] = 0`) preserves it; (5) hence any grid produced by `solveBoard`
from a conforming grid satisfies it.  (2)–(4) are exactly the three mutations
performed during generation, so every intermediate state of the working grid
is conflict free. -/
theorem C4_generation_invariant :
    conflictFree zeroGrid ∧
    (∀ pre suf rands (g1 : Grid) rands1, seedList = pre ++ suf →
      fillCellsAux pre zeroGrid rands = some (g1, rands1) → conflictFree g1) ∧
    (∀ (g : Grid) i j n, WF g → conflictFree g → i < 9 → j < 9 →
      isValid g i j n = true → conflictFree (setCell g i j n)) ∧
    (∀ (g : Grid) i j, conflictFree g → conflictFree (setCell g i j 0)) ∧
    (∀ fuel (g : Grid) bl g1, WF g → conflictFree g → rangeOK g →
      solveBoardF fuel g = some (bl, g1) → conflictFree g1) := by
  refine ⟨conflictFree_zeroGrid, ?_, ?_, ?_, ?_⟩
  · intro pre suf rands g1 rands1 hsplit h
    have hshape : ∀ e ∈ pre, (e.1 = 0 ∨ e.1 = 3 ∨ e.1 = 6) ∧ e.2.1 = e.1 ∧
        e.2.2.1 < 3 ∧ e.2.2.2 < 3 := by
      intro e he
      apply seedList_shape
      rw [hsplit]
      exact List.mem_append_left _ he
    exact (fillCellsAux_inv pre zeroGrid rands g1 rands1 hshape WF_zeroGrid
      conflictFree_zeroGrid rangeOK_zeroGrid diagSupport_zeroGrid h).2.1
  · intro g i j n hwf hcf hi hj hv
    exact conflictFree_setCell_isValid hwf hcf hi hj hv
  · intro g i j hcf
    exact conflictFree_setCell_zero hcf i j
  · intro fuel g bl g1 hwf hcf hro h
    exact (solveBoardF_inv fuel g bl g1 hwf hcf hro h).1.2.1

/-- C4 witness: the invariant conjuncts applied at concrete states: the fully
seeded board, a first placement on the empty board, an undo on the seeded
board, and a solver run on a full board. -/
theorem C4_witness :
    conflictFree B1W ∧ conflictFree (setCell zeroGrid 0 0 5) ∧
    conflictFree (setCell B1W 0 3 0) ∧ conflictFree G2W :=
  ⟨C4_generation_invariant.2.1 seedList [] rsSeedW B1W []
      (List.append_nil seedList).symm seedEval,
   C4_generation_invariant.2.2.1 zeroGrid 0 0 5 (by decide) (by decide) (by decide)
      (by decide) (by decide),
   C4_generation_invariant.2.2.2.1 B1W 0 3 (by decide),
   C4_generation_invariant.2.2.2.2 1 G2W true G2W (by decide) (by decide) (by decide)
      (by decide)⟩

/-- C5 counterexample: the returned grids DO alias internal generator state.
In the heap model, the returned `initial` address (here 0) is exactly the
address stored in the generator's `board` field after the call, and writing
digit 9 into cell (0,0) of the returned puzzle (whose value there was 0)
changes what the generator's internal board reference reads to 9.  This
refutes the claim's «the returned grids do not alias internal generator
state, so they are safe for arbitrary external mutation». -/
theorem C5_counterexample :
    generateNewGameH ⟨[], 0, none⟩ (some "Medium") rsW =
      some (⟨[G1W, G2W], 0, some 1⟩, 0, 1) ∧
    (0 : Nat) = (CSPState.mk [G1W, G2W] 0 (some 1)).boardRef ∧
    getCell G1W 0 0 = 0 ∧
    readCell (writeCell [G1W, G2W] 0 0 0 9)
      (CSPState.mk [G1W, G2W] 0 (some 1)).boardRef 0 0 = 9 :=
  ⟨genHEval, rfl, by decide, by decide⟩

/-- C5 (amended): the puzzle and solution returned by one call are backed by
distinct allocations, so mutating either one never changes the other; but the
returned references are the generator's own `this.board` and `this.solution`
fields (the claim's «no aliasing of internal generator state» part is false). -/
theorem C5_puzzle_solution_independent :
    ∀ st (d : Option String) rs st1 iRef sRef,
      generateNewGameH st d rs = some (st1, iRef, sRef) →
      iRef ≠ sRef ∧
      (∀ a b v a2 b2, readCell (writeCell st1.heap iRef a b v) sRef a2 b2 =
        readCell st1.heap sRef a2 b2) ∧
      (∀ a b v a2 b2, readCell (writeCell st1.heap sRef a b v) iRef a2 b2 =
        readCell st1.heap iRef a2 b2) ∧
      iRef = st1.boardRef ∧ st1.solutionRef = some sRef := by
  intro st d rs st1 iRef sRef h
  unfold generateNewGameH at h
  cases hg : generateNewGame d rs with
  | none =>
    simp only [hg] at h
    exact absurd h (by simp)
  | some p =>
    obtain ⟨g1, g2⟩ := p
    simp only [hg] at h
    obtain ⟨e1, e2, e3⟩ :
        st1 = ⟨st.heap ++ [g1, g2], st.heap.length, some (st.heap.length + 1)⟩ ∧
        iRef = st.heap.length ∧ sRef = st.heap.length + 1 := by
      simp only [Option.some.injEq, Prod.mk.injEq] at h
      exact ⟨h.1.symm, h.2.1.symm, h.2.2.symm⟩
    subst e1
    subst e2
    subst e3
    refine ⟨by omega, ?_, ?_, rfl, rfl⟩
    · intro a b v a2 b2
      unfold readCell writeCell
      rw [getD_set_ne (by omega)]
    · intro a b v a2 b2
      unfold readCell writeCell
      rw [getD_set_ne (by omega)]

/-- C5 witness: the amended independence facts on the concrete run. -/
theorem C5_witness :
    (0 : Nat) ≠ 1 ∧
    (∀ a b v a2 b2, readCell (writeCell [G1W, G2W] 0 a b v) 1 a2 b2 =
      readCell [G1W, G2W] 1 a2 b2) ∧
    (∀ a b v a2 b2, readCell (writeCell [G1W, G2W] 1 a b v) 0 a2 b2 =
      readCell [G1W, G2W] 0 a2 b2) ∧
    (0 : Nat) = (CSPState.mk [G1W, G2W] 0 (some 1)).boardRef ∧
    (CSPState.mk [G1W, G2W] 0 (some 1)).solutionRef = some 1 :=
  C5_puzzle_solution_independent ⟨[], 0, none⟩ (some "Medium") rsW
    ⟨[G1W, G2W], 0, some 1⟩ 0 1 genHEval

/-- C6: the difficulty mapping.  An omitted difficulty behaves exactly as
`Medium`; any unrecognized label behaves exactly as `Medium`; the removal
counts are 30/40/50 for Easy/Medium/Hard; and every completed generation
clears exactly the mapped count of cells. -/
theorem C6_difficulty_mapping :
    ∀ rs, generateNewGame none rs = generateNewGame (some "Medium") rs ∧
      (∀ d : String, d ≠ "Easy" → d ≠ "Hard" →
        generateNewGame (some d) rs = generateNewGame (some "Medium") rs) ∧
      removalCount "Easy" = 30 ∧ removalCount "Medium" = 40 ∧
      removalCount "Hard" = 50 ∧
      (∀ (d : Option String) (g1 g2 : Grid), generateNewGame d rs = some (g1, g2) →
        numZeros g1 = removalCount (d.getD "Medium")) := by
  intro rs
  refine ⟨rfl, ?_, rfl, rfl, rfl, ?_⟩
  · intro d h1 h2
    apply generateNewGame_difficulty_eq
    show removalCount d = removalCount "Medium"
    unfold removalCount
    rw [if_neg h1, if_neg h2]
    rfl
  · intro d g1 g2 h
    exact (generateNewGame_main d rs g1 g2 h).2.2.2.2.2.2.1

/-- C6 witness: an unrecognized label behaves as Medium on the concrete
stream, and the concrete Medium run cleared `removalCount "Medium"` cells. -/
theorem C6_witness :
    generateNewGame (some "Impossible") rsW = generateNewGame (some "Medium") rsW ∧
    numZeros G1W = removalCount "Medium" :=
  ⟨(C6_difficulty_mapping rsW).2.1 "Impossible" (by decide) (by decide),
   (C6_difficulty_mapping rsW).2.2.2.2.2 (some "Medium") G1W G2W genEval⟩

/-- C7: `generateNewGame` has no error outcome.  Its only result type is a
pair of grids: every completed call returns a well-formed (initial, solution)
pair, and there is no error value, exception, or solver-failure signal in the
interface (the boolean returned by `solveBoard` is discarded on line 94).
Moreover whenever the seeding succeeds and the internal solver completes the
seeded board, a suitable continuation of the random stream completes the whole
call with exactly that solution — the solver outcome is never surfaced as an
error.  (In the model, `none` is not an error value: it means the finite draw
stream ran out while a JavaScript loop would still be drawing.) -/
theorem C7_no_error_outcome :
    ∀ (d : Option String) rs,
      (∀ out, generateNewGame d rs = some out → WF out.1 ∧ WF out.2) ∧
      (∀ rsSeed (b1 g2 : Grid), fillDiagonal zeroGrid rsSeed = some (b1, []) →
        solveBoardF (numZeros b1 + 1) b1 = some (true, g2) →
        ∃ rsRemoval g1, generateNewGame d (rsSeed ++ rsRemoval) = some (g1, g2)) := by
  intro d rs
  constructor
  · intro out h
    obtain ⟨g1, g2⟩ := out
    obtain ⟨hwf1, hwf2, _⟩ := generateNewGame_main d rs g1 g2 h
    exact ⟨hwf1, hwf2⟩
  · intro rsSeed b1 g2 hfd hsv
    exact generateNewGame_completes d rsSeed b1 g2 hfd hsv

/-- C7 witness: the concrete run returns a well-formed pair, and the concrete
seeded board's solver success extends to a full generation. -/
theorem C7_witness :
    (WF G1W ∧ WF G2W) ∧
    (∃ rsRemoval g1,
      generateNewGame (some "Medium") (rsSeedW ++ rsRemoval) = some (g1, G2W)) :=
  ⟨(C7_no_error_outcome (some "Medium") rsW).1 (G1W, G2W) genEval,
   (C7_no_error_outcome (some "Medium") rsW).2 rsSeedW B1W G2W seedEval solveEval⟩

/-- C8: `solveBoard` terminates on every 9×9 grid: fuel counting one unit per
recursion level never runs out when set to the number of empty cells plus one,
and that bound is at most 82 (at most one recursive level per grid cell, the
cell count being at most 81). -/
theorem C8_solver_terminates :
    ∀ g : Grid, WF g →
      (solveBoardF (numZeros g + 1) g).isSome = true ∧ numZeros g ≤ 81 :=
  fun g hwf => ⟨solveBoardF_some (numZeros g + 1) g hwf (by omega), numZeros_le g⟩

/-- C8 witness: termination bound applied to the concrete puzzle grid. -/
theorem C8_witness :
    (solveBoardF (numZeros G1W + 1) G1W).isSome = true ∧ numZeros G1W ≤ 81 :=
  C8_solver_terminates G1W (by decide)

/-- C9: whenever `solveBoard` returns false, the board it leaves behind is
exactly its pre-call state: every tentatively filled cell has been reset to 0,
and no partially-placed digit is visible to the caller. -/
theorem C9_failure_restores_board :
    ∀ fuel (g g1 : Grid), solveBoardF fuel g = some (false, g1) → g1 = g :=
  fun fuel g g1 h => solveBoardF_false fuel g g1 h

/-- C9 witness: a concrete failing call (no digit fits cell (0,0)) returns the
board unchanged. -/
theorem C9_witness :
    solveBoardF 82 gFail = some (false, gFail) ∧ gFail = gFail :=
  ⟨by rfl, C9_failure_restores_board 82 gFail gFail (by rfl)⟩

/-- C10: `solveBoard` writes only to cells that are empty at the moment of
writing: every cell that is non-zero at call time holds the same value when
the call returns, on success and on failure alike — in particular the seeded
diagonal cells are preserved verbatim in any completion. -/
theorem C10_nonzero_cells_preserved :
    ∀ fuel (g : Grid) bl g1, solveBoardF fuel g = some (bl, g1) →
      ∀ a c, getCell g a c ≠ 0 → getCell g1 a c = getCell g a c :=
  fun fuel g bl g1 h => solveBoardF_frame fuel g bl g1 h

/-- C10 witness: solving `G2W` with one cell cleared restores exactly that
grid and preserves all 80 non-empty cells. -/
theorem C10_witness :
    solveBoardF 2 gOneHole = some (true, G2W) ∧
    (∀ a c, getCell gOneHole a c ≠ 0 → getCell G2W a c = getCell gOneHole a c) :=
  ⟨by rfl, C10_nonzero_cells_preserved 2 gOneHole true G2W (by rfl)⟩
